import Mathlib

/-!
# Verification of the LogAnalyzer viewer core (`log_analyzer.py`)

A shallow embedding of the `LogViewer` class: log-line parsing
(`parse_log_line` / the `log_format` regex), store loading (`load_logs`),
and the filter/navigation engine (`filter_logs`, `navigate_logs`,
`reset_view`, `add_search_term`, `get_logs_by_range`).

Python exceptions (the `ValueError` of `list.index` on a missing element)
are modelled by `Option`: `none` is an unhandled exception escaping the
method, `some st` is the updated viewer state.  Character classes of the
regex are modelled over ASCII (`\d` → `Char.isDigit`, `\w` →
ASCII alphanumeric or underscore, `[A-Z]` → ASCII uppercase); the regex
engine's backtracking is irrelevant here because in the pattern
`(?P<datetime>\d{4}-… ) \[(?P<severity>[A-Z]+)\] (?P<source>[\w:]+) - (?P<message>.+)`
every repeated class excludes the literal character that follows it, so
greedy maximal munch is the unique match.
-/

namespace LogAnalyzer

/-- A parsed log record: the `groupdict()` of a successful
`log_format.match`, with the four named groups. -/
structure LogRecord where
  datetime : String
  severity : String
  source : String
  message : String
deriving DecidableEq, Repr

/-- `self.levels = ['DEBUG', 'INFO', 'WARNING', 'ERROR', 'CRITICAL']`. -/
def levels : List String := ["DEBUG", "INFO", "WARNING", "ERROR", "CRITICAL"]

/-- Python `list.index`: position of the first occurrence, `none` for the
`ValueError` raised when the element is absent. -/
def pyIndex (xs : List String) (x : String) : Option Nat :=
  match xs with
  | [] => none
  | y :: ys => if y = x then some 0 else (pyIndex ys x).map (· + 1)

/-- The severity's index in `levels`, defaulted; used only to state
theorems whose hypotheses guarantee the index exists. -/
def sevIdxD (s : String) : Nat := (pyIndex levels s).getD 0

/-! ## The `log_format` regular expression -/

/-- `\w` or `:` (the `source` class `[\w:]`), over ASCII. -/
def isWordColon (c : Char) : Bool := c.isAlphanum || c = '_' || c = ':'

/-- `.` of the regex: any character but a newline (the `message` class). -/
def isMsgChar (c : Char) : Bool := c != '\n'

/-- Match a fixed-length shape (one predicate per character), returning
the consumed characters and the rest.  Models the fixed-width part
`\d{4}-\d{2}-\d{2} \d{2}:\d{2}:\d{2},\d{3}` of the regex. -/
def matchShape : List (Char → Bool) → List Char → Option (List Char × List Char)
  | [], cs => some ([], cs)
  | _ :: _, [] => none
  | p :: ps, c :: cs =>
    if p c then (matchShape ps cs).map (fun q => (c :: q.1, q.2)) else none

/-- The shape of the `datetime` group: `\d{4}-\d{2}-\d{2} \d{2}:\d{2}:\d{2},\d{3}`. -/
def dtShape : List (Char → Bool) :=
  [Char.isDigit, Char.isDigit, Char.isDigit, Char.isDigit, (· = '-'),
   Char.isDigit, Char.isDigit, (· = '-'), Char.isDigit, Char.isDigit, (· = ' '),
   Char.isDigit, Char.isDigit, (· = ':'), Char.isDigit, Char.isDigit, (· = ':'),
   Char.isDigit, Char.isDigit, (· = ','), Char.isDigit, Char.isDigit, Char.isDigit]

/-- Greedy run of characters satisfying `p` (a `+`-repetition of a
character class): the consumed run and the rest. -/
def munch (p : Char → Bool) : List Char → List Char × List Char
  | [] => ([], [])
  | c :: cs => if p c then (c :: (munch p cs).1, (munch p cs).2) else ([], c :: cs)

/-- `+`-repetition: like `munch` but the run must be non-empty. -/
def munch1 (p : Char → Bool) (cs : List Char) : Option (List Char × List Char) :=
  if (munch p cs).1 = [] then none else some (munch p cs)

/-- Match the literal characters `es` at the front of the input,
returning the rest.  Models the literal fragments ` [`, `] `, ` - ` of
the regex. -/
def expectChars : List Char → List Char → Option (List Char)
  | [], cs => some cs
  | _ :: _, [] => none
  | e :: es, c :: cs => if c = e then expectChars es cs else none

/-- `log_format.match(line)` on the character list: the full pattern
`(?P<datetime>…) \[(?P<severity>[A-Z]+)\] (?P<source>[\w:]+) - (?P<message>.+)`
matched from the start (`re.match` anchors at the start only; trailing
input after the greedy `message` run is ignored, as with `re.match`). -/
def parseChars (cs : List Char) : Option LogRecord :=
  (matchShape dtShape cs).bind (fun q1 =>
  (expectChars [' ', '['] q1.2).bind (fun r1 =>
  (munch1 Char.isUpper r1).bind (fun q2 =>
  (expectChars [']', ' '] q2.2).bind (fun r2 =>
  (munch1 isWordColon r2).bind (fun q3 =>
  (expectChars [' ', '-', ' '] q3.2).bind (fun r3 =>
  (munch1 isMsgChar r3).map (fun q4 =>
    { datetime := String.mk q1.1
      severity := String.mk q2.1
      source := String.mk q3.1
      message := String.mk q4.1 })))))))

/-- `LogViewer.parse_log_line`: `groupdict()` of the match, or `None`. -/
def parse_log_line (line : String) : Option LogRecord :=
  parseChars line.data

/-- `LogViewer.load_logs`: append each line's parse, skipping `None`
results.  The caller supplies the already-`strip()`ped lines of the file
(file access is outside the engine core). -/
def load_logs (lines : List String) : List LogRecord :=
  lines.filterMap parse_log_line

/-- The mutable viewer state of `LogViewer`: the immutable store
`self.logs`, the visible subset `self.filtered_logs`, the threshold
`self.current_level`, the cursor `self.current_index`, and
`self.search_terms`. -/
structure LogState where
  logs : List LogRecord
  filtered_logs : List LogRecord
  current_level : String
  current_index : Nat
  search_terms : List String
deriving DecidableEq, Repr

/-- `LogViewer.__init__` after `load_logs`: visible subset is a copy of
the store, level `DEBUG`, cursor 0, no search terms. -/
def mkViewer (lines : List String) : LogState :=
  { logs := load_logs lines
    filtered_logs := load_logs lines
    current_level := "DEBUG"
    current_index := 0
    search_terms := [] }

/-- The list comprehension of `filter_logs`:
`[log for log in self.logs if self.levels.index(log['severity']) >= level_index]`.
`none` models the `ValueError` raised when any record's severity is
outside `levels` (the comprehension evaluates `index` for every record). -/
def filterAux (li : Nat) : List LogRecord → Option (List LogRecord)
  | [] => some []
  | r :: rs =>
    match pyIndex levels r.severity with
    | none => none
    | some si =>
      match filterAux li rs with
      | none => none
      | some tl => some (if li ≤ si then r :: tl else tl)

/-- `LogViewer.filter_logs(level)`: recompute the visible subset from the
store by severity index, reset the cursor to 0.  `none` models an
unhandled `ValueError` from `levels.index`. -/
def filter_logs (st : LogState) (level : String) : Option LogState :=
  (pyIndex levels level).bind (fun li =>
    (filterAux li st.logs).map
      (fun fl => { st with filtered_logs := fl, current_index := 0 }))

/-- Python slice `xs[start:stop]` for natural `start ≤ stop` bounds. -/
def pySlice (xs : List LogRecord) (start stop : Nat) : List LogRecord :=
  (xs.drop start).take (stop - start)

/-- The loop of `get_logs_by_range`: `for i, log in enumerate(self.logs)`,
appending `self.logs[max(0, i - count):i + 1]` for every record meeting
the threshold.  `full` stays the whole store while the recursion walks
the suffix `rs` starting at position `i`; natural subtraction `i - count`
is Python's `max(0, i - count)`. -/
def rangeAux (full : List LogRecord) (li count : Nat) : Nat → List LogRecord → Option (List LogRecord)
  | _, [] => some []
  | i, r :: rs =>
    match pyIndex levels r.severity with
    | none => none
    | some si =>
      match rangeAux full li count (i + 1) rs with
      | none => none
      | some tl =>
        some (if li ≤ si then pySlice full (i - count) (i + 1) ++ tl else tl)

/-- `LogViewer.get_logs_by_range(level, count)`: replaces the visible
subset with the concatenated context windows; the cursor, level and
search terms are left untouched. -/
def get_logs_by_range (st : LogState) (level : String) (count : Nat) : Option LogState :=
  (pyIndex levels level).bind (fun li =>
    (rangeAux st.logs li count 0 st.logs).map
      (fun res => { st with filtered_logs := res }))

/-- `LogViewer.reset_view`: visible subset = the store, level `DEBUG`,
cursor 0, search terms cleared. -/
def reset_view (st : LogState) : LogState :=
  { st with
    filtered_logs := st.logs
    current_level := "DEBUG"
    current_index := 0
    search_terms := [] }

/-- `LogViewer.navigate_logs(direction)`: move the cursor one step,
clamped; any other direction (or a boundary) leaves the state unchanged. -/
def navigate_logs (st : LogState) (direction : String) : LogState :=
  if direction = "up" ∧ 0 < st.current_index then
    { st with current_index := st.current_index - 1 }
  else if direction = "down" ∧ st.current_index < st.filtered_logs.length - 1 then
    { st with current_index := st.current_index + 1 }
  else st

/-- `LogViewer.add_search_term(term)`: append unless already present
(Python `in`, i.e. string equality). -/
def add_search_term (st : LogState) (term : String) : LogState :=
  if term ∈ st.search_terms then st
  else { st with search_terms := st.search_terms ++ [term] }

/-- The cursor invariant of the spec: whenever the visible subset is
non-empty the cursor is a valid index into it. -/
def cursorInv (st : LogState) : Prop :=
  st.filtered_logs ≠ [] → st.current_index < st.filtered_logs.length

instance (st : LogState) : Decidable (cursorInv st) := by
  unfold cursorInv; infer_instance

/-- The line rebuilt from a record's four fields, as
`<datetime> [<severity>] <source> - <message>`. -/
def reconstruct_line (r : LogRecord) : String :=
  r.datetime ++ " [" ++ r.severity ++ "] " ++ r.source ++ " - " ++ r.message

/-- A fixed-length shape matches a character list exactly. -/
def shapeMatches : List (Char → Bool) → List Char → Bool
  | [], [] => true
  | p :: ps, c :: cs => p c && shapeMatches ps cs
  | _, _ => false

/-- The visible subset the spec describes for `rangeQuery(level, n)`
with threshold index `li`: the concatenation, over every store index `i`
whose record meets the threshold, taken in store order, of the store
slice from `max(0, i - n)` (natural subtraction) through `i` inclusive;
overlapping windows are kept, so a record may occur several times. -/
def rangeSpec (full : List LogRecord) (li n : Nat) : List LogRecord :=
  ((full.enum.filter (fun p => decide (li ≤ sevIdxD p.2.severity))).map
    (fun p => pySlice full (p.1 - n) (p.1 + 1))).flatten

/-! ## Concrete fixture: the spec's five-record scenario store -/

/-- Record 0 of the scenario store (severity `DEBUG`). -/
def rec0 : LogRecord :=
  { datetime := "2024-01-01 12:00:00,000", severity := "DEBUG", source := "m", message := "a" }

/-- Record 1 of the scenario store (severity `INFO`). -/
def rec1 : LogRecord :=
  { datetime := "2024-01-01 12:00:00,001", severity := "INFO", source := "m", message := "b" }

/-- Record 2 of the scenario store (severity `ERROR`). -/
def rec2 : LogRecord :=
  { datetime := "2024-01-01 12:00:00,002", severity := "ERROR", source := "m", message := "c" }

/-- Record 3 of the scenario store (severity `DEBUG`). -/
def rec3 : LogRecord :=
  { datetime := "2024-01-01 12:00:00,003", severity := "DEBUG", source := "m", message := "d" }

/-- Record 4 of the scenario store (severity `CRITICAL`). -/
def rec4 : LogRecord :=
  { datetime := "2024-01-01 12:00:00,004", severity := "CRITICAL", source := "m", message := "e" }

/-- The scenario store: severities `[DEBUG, INFO, ERROR, DEBUG, CRITICAL]`. -/
def demoLogs : List LogRecord := [rec0, rec1, rec2, rec3, rec4]

/-- A freshly loaded viewer over the scenario store. -/
def demoState : LogState :=
  { logs := demoLogs
    filtered_logs := demoLogs
    current_level := "DEBUG"
    current_index := 0
    search_terms := [] }

/-- A raw line parsing to `rec0`. -/
def demoLine : String := "2024-01-01 12:00:00,000 [DEBUG] m - a"

/-- A state with an active search term, for the `add_search_term` claims. -/
def termState : LogState := { demoState with search_terms := ["ERROR"] }

/-- A line whose severity field is an uppercase word outside the
five-level enumeration; the parse regex accepts it. -/
def traceLine : String := "2024-01-01 12:00:00,000 [TRACE] mod - boom"

/-- The record `traceLine` parses to. -/
def traceRec : LogRecord :=
  { datetime := "2024-01-01 12:00:00,000", severity := "TRACE", source := "mod", message := "boom" }

/-- A viewer loaded from the single line `traceLine`. -/
def traceState : LogState := mkViewer [traceLine]

/-! ## Helper lemmas -/

/-- A member of the list has a `pyIndex`. -/
theorem pyIndex_isSome {xs : List String} {x : String} (h : x ∈ xs) :
    ∃ i, pyIndex xs x = some i := by
  induction xs with
  | nil => cases h
  | cons y ys ih =>
    by_cases hy : y = x
    · exact ⟨0, by simp [pyIndex, hy]⟩
    · rcases List.mem_cons.mp h with h1 | h1
      · exact absurd h1.symm hy
      · obtain ⟨i, hi⟩ := ih h1
        exact ⟨i + 1, by simp [pyIndex, hy, hi]⟩

/-- On a store whose severities are all in `levels`, the comprehension of
`filter_logs` does not raise and computes a plain `List.filter` by
severity index. -/
theorem filterAux_eq (li : Nat) (logs : List LogRecord)
    (h : ∀ r ∈ logs, r.severity ∈ levels) :
    filterAux li logs =
      some (logs.filter (fun r => decide (li ≤ sevIdxD r.severity))) := by
  induction logs with
  | nil => rfl
  | cons r rs ih =>
    obtain ⟨si, hsi⟩ := pyIndex_isSome (h r (List.mem_cons_self r rs))
    have hrest := ih (fun q hq => h q (List.mem_cons_of_mem r hq))
    have hsev : sevIdxD r.severity = si := by simp [sevIdxD, hsi]
    simp only [filterAux, hsi, hrest, List.filter_cons, hsev]
    by_cases hle : li ≤ si <;> simp [hle]

/-- C1: for every store whose severities all belong to the five-level
enumeration and every valid threshold level, `filter_logs` succeeds and
recomputes the visible subset as exactly the store records whose
severity index is at least the threshold's index, in store order (a
sublist of the store), and resets the cursor to 0; the store itself is
unchanged. -/
theorem filter_logs_spec (st : LogState) (level : String) (li : Nat)
    (hsev : ∀ r ∈ st.logs, r.severity ∈ levels)
    (hlvl : pyIndex levels level = some li) :
    ∃ st', filter_logs st level = some st' ∧
      st'.filtered_logs = st.logs.filter (fun r => decide (li ≤ sevIdxD r.severity)) ∧
      st'.current_index = 0 ∧
      st'.filtered_logs.Sublist st.logs ∧
      (∀ r, r ∈ st'.filtered_logs ↔ r ∈ st.logs ∧ li ≤ sevIdxD r.severity) ∧
      st'.logs = st.logs := by
  refine ⟨{ st with filtered_logs := st.logs.filter (fun r => decide (li ≤ sevIdxD r.severity)), current_index := 0 },
    ?_, rfl, rfl, ?_, ?_, rfl⟩
  · simp only [filter_logs, hlvl, Option.some_bind, filterAux_eq li st.logs hsev,
      Option.map_some']
  · exact List.filter_sublist st.logs
  · intro r
    simp [List.mem_filter]

/-- C1 witness: the spec's scenario.  On the five-record store with
severities `[DEBUG, INFO, ERROR, DEBUG, CRITICAL]`, `filter_logs ERROR`
keeps exactly the records at positions 2 and 4 and resets the cursor. -/
theorem filter_logs_spec_witness :
    (∃ st', filter_logs demoState "ERROR" = some st' ∧
      st'.filtered_logs =
        demoState.logs.filter (fun r => decide (3 ≤ sevIdxD r.severity)) ∧
      st'.current_index = 0 ∧
      st'.filtered_logs.Sublist demoState.logs ∧
      (∀ r, r ∈ st'.filtered_logs ↔ r ∈ demoState.logs ∧ 3 ≤ sevIdxD r.severity) ∧
      st'.logs = demoState.logs) ∧
    filter_logs demoState "ERROR" =
      some { demoState with filtered_logs := [rec2, rec4], current_index := 0 } :=
  ⟨filter_logs_spec demoState "ERROR" 3 (by decide) (by decide), by decide⟩

/-- A state reachable from `demoState`'s first three records after two
`navigate_logs "down"` steps: cursor 2 on a three-record visible subset. -/
def cexState : LogState :=
  { logs := [rec0, rec1, rec2]
    filtered_logs := [rec0, rec1, rec2]
    current_level := "DEBUG"
    current_index := 2
    search_terms := [] }

/-- C2 counterexample: `cexState` satisfies the cursor bound and is
reached by two cursor steps, yet `get_logs_by_range` — which replaces
the visible subset without resetting the cursor — leaves the cursor at
index 2 over a one-record visible subset, violating the bound. -/
theorem cursor_invariant_cex :
    cursorInv cexState ∧
    navigate_logs (navigate_logs { cexState with current_index := 0 } "down") "down" = cexState ∧
    get_logs_by_range cexState "ERROR" 0 = some { cexState with filtered_logs := [rec2] } ∧
    ¬ cursorInv { cexState with filtered_logs := [rec2] } := by decide

/-- C2 amended: the cursor bound is an invariant of `filter_logs`,
`navigate_logs`, `reset_view` and `add_search_term`, and no operation
indexes with the cursor; but `get_logs_by_range` keeps the previous
cursor while replacing the visible subset, so it does not preserve the
bound. -/
theorem cursor_invariant_amended (st : LogState) (h : cursorInv st) :
    (∀ level st', filter_logs st level = some st' → cursorInv st') ∧
    (∀ direction, cursorInv (navigate_logs st direction)) ∧
    cursorInv (reset_view st) ∧
    (∀ term, cursorInv (add_search_term st term)) ∧
    (∀ level count st', get_logs_by_range st level count = some st' →
      st'.current_index = st.current_index ∧ st'.logs = st.logs) := by
  refine ⟨?_, ?_, ?_, ?_, ?_⟩
  · intro level st' hst'
    simp only [filter_logs, Option.bind_eq_some, Option.map_eq_some'] at hst'
    obtain ⟨li, -, fl, -, hst'⟩ := hst'
    subst hst'
    intro hne
    exact List.length_pos.mpr hne
  · intro direction
    unfold cursorInv at h ⊢
    unfold navigate_logs
    split_ifs with h1 h2
    · obtain ⟨-, h1⟩ := h1
      dsimp only
      intro hne
      have := h hne
      omega
    · obtain ⟨-, h2⟩ := h2
      dsimp only
      intro hne
      omega
    · exact h
  · intro hne
    exact List.length_pos.mpr hne
  · intro term
    unfold cursorInv at h ⊢
    unfold add_search_term
    split_ifs
    · exact h
    · exact h
  · intro level count st' hst'
    simp only [get_logs_by_range, Option.bind_eq_some, Option.map_eq_some'] at hst'
    obtain ⟨li, -, res, -, hst'⟩ := hst'
    subst hst'
    exact ⟨rfl, rfl⟩

/-- C2 amended witness: the preserved operations at a concrete state. -/
theorem cursor_invariant_amended_witness :
    cursorInv (navigate_logs demoState "down") ∧ cursorInv (reset_view demoState) :=
  ⟨(cursor_invariant_amended demoState (by decide)).2.1 "down",
   (cursor_invariant_amended demoState (by decide)).2.2.1⟩

/-- On a store whose severities are all in `levels`, the loop of
`get_logs_by_range` starting at position `i` on the suffix `rs` computes
the concatenated context windows of the qualifying suffix records. -/
theorem rangeAux_eq (full : List LogRecord) (li n : Nat) :
    ∀ (rs : List LogRecord) (i : Nat), (∀ r ∈ rs, r.severity ∈ levels) →
    rangeAux full li n i rs =
      some ((((rs.enumFrom i).filter (fun p => decide (li ≤ sevIdxD p.2.severity))).map
        (fun p => pySlice full (p.1 - n) (p.1 + 1))).flatten) := by
  intro rs
  induction rs with
  | nil => intro i _; rfl
  | cons r rs ih =>
    intro i h
    obtain ⟨si, hsi⟩ := pyIndex_isSome (h r (List.mem_cons_self r rs))
    have hsev : sevIdxD r.severity = si := by simp [sevIdxD, hsi]
    have hrest := ih (i + 1) (fun q hq => h q (List.mem_cons_of_mem r hq))
    simp only [rangeAux, hsi, hrest, List.enumFrom_cons, List.filter_cons, hsev]
    by_cases hle : li ≤ si <;> simp [hle]

/-- C3: for every store with severities in the enumeration and every
valid level, `get_logs_by_range` succeeds and sets the visible subset to
the concatenation, over every store index `i` whose record meets the
threshold, in store order, of the store slice from `max(0, i - n)`
through `i` inclusive (`rangeSpec`, whose flattening keeps overlapping
windows, so a record may occur several times); store, cursor and level
are untouched. -/
theorem get_logs_by_range_spec (st : LogState) (level : String) (li n : Nat)
    (hsev : ∀ r ∈ st.logs, r.severity ∈ levels)
    (hlvl : pyIndex levels level = some li) :
    ∃ st', get_logs_by_range st level n = some st' ∧
      st'.filtered_logs = rangeSpec st.logs li n ∧
      st'.logs = st.logs ∧ st'.current_index = st.current_index ∧
      st'.current_level = st.current_level := by
  refine ⟨{ st with filtered_logs := rangeSpec st.logs li n }, ?_, rfl, rfl, rfl, rfl⟩
  simp only [get_logs_by_range, hlvl, Option.some_bind,
    rangeAux_eq st.logs li n st.logs 0 hsev, Option.map_some']
  rfl

/-- C3 witness: the spec's scenario `rangeQuery(ERROR, 1)` on the
five-record store yields the records at positions 1, 2, 3, 4 (window
around index 2 clipped, window around index 4 contributing records 3
and 4), and on a two-record `[ERROR, CRITICAL]` store the overlapping
windows repeat the first record. -/
theorem get_logs_by_range_spec_witness :
    (∃ st', get_logs_by_range demoState "ERROR" 1 = some st' ∧
      st'.filtered_logs = rangeSpec demoState.logs 3 1 ∧
      st'.logs = demoState.logs ∧ st'.current_index = demoState.current_index ∧
      st'.current_level = demoState.current_level) ∧
    get_logs_by_range demoState "ERROR" 1 =
      some { demoState with filtered_logs := [rec1, rec2, rec3, rec4] } ∧
    rangeSpec [rec2, rec4] 3 1 = [rec2, rec2, rec4] :=
  ⟨get_logs_by_range_spec demoState "ERROR" 3 1 (by decide) (by decide),
   by decide, by decide⟩

/-- With `count = 0` every context window is the single qualifying
record, so the loop of `get_logs_by_range` computes exactly the
comprehension of `filter_logs` — including raising on the same inputs. -/
theorem rangeAux_zero (full : List LogRecord) (li : Nat) :
    ∀ (rs : List LogRecord) (i : Nat), full.drop i = rs →
    rangeAux full li 0 i rs = filterAux li rs := by
  intro rs
  induction rs with
  | nil => intro i _; rfl
  | cons r rs ih =>
    intro i hdrop
    have hone : pySlice full (i - 0) (i + 1) = [r] := by
      simp only [pySlice, Nat.sub_zero, Nat.add_sub_cancel_left, hdrop]
      rfl
    have hnext : full.drop (i + 1) = rs := by
      have : full.drop (i + 1) = (full.drop i).drop 1 := by
        rw [List.drop_drop]
      rw [this, hdrop, List.drop_one, List.tail_cons]
    simp only [rangeAux, filterAux, hone, ih (i + 1) hnext]
    rcases pyIndex levels r.severity with _ | si
    · rfl
    · rcases filterAux li rs with _ | tl
      · rfl
      · by_cases hle : li ≤ si <;> simp [hle]

/-- C4: `get_logs_by_range` with `count = 0` produces exactly the same
visible subset (the same list, hence the same membership) as
`filter_logs` with the same level — and raises on exactly the same
inputs. -/
theorem range_zero_eq_filter (st : LogState) (level : String) :
    (get_logs_by_range st level 0).map LogState.filtered_logs =
      (filter_logs st level).map LogState.filtered_logs := by
  simp only [get_logs_by_range, filter_logs]
  rcases pyIndex levels level with _ | li
  · rfl
  · simp only [Option.some_bind, rangeAux_zero st.logs li st.logs 0 rfl]
    rcases filterAux li st.logs with _ | fl <;> rfl

/-- C5: a line either fully matches the record pattern — yielding a
record with all four fields — or yields no record; lines yielding no
record are omitted from the store built by `load_logs`, and every store
record comes from some line that parsed; in particular the line
`"not a log line"` parses to `none`. -/
theorem parse_partial_lines_dropped :
    parse_log_line "not a log line" = none ∧
    (∀ (line : String) (lines : List String), parse_log_line line = none →
      load_logs (line :: lines) = load_logs lines) ∧
    (∀ (lines : List String) (r : LogRecord), r ∈ load_logs lines →
      ∃ l ∈ lines, parse_log_line l = some r) := by
  refine ⟨by decide, ?_, ?_⟩
  · intro line lines h
    simp [load_logs, List.filterMap_cons, h]
  · intro lines r h
    exact List.mem_filterMap.mp h

/-- C5 witness: the unparseable line contributes nothing to the store,
and the store record of a parsed line comes from that line. -/
theorem parse_partial_lines_dropped_witness :
    load_logs ["not a log line"] = load_logs [] ∧
    ∃ l ∈ [demoLine], parse_log_line l = some rec0 :=
  ⟨parse_partial_lines_dropped.2.1 "not a log line" [] (by decide),
   parse_partial_lines_dropped.2.2 [demoLine] rec0 (by decide)⟩

/-- A greedy run over characters all satisfying `p`, stopped by a
character refuting `p` (or the end), consumes exactly the run. -/
theorem munch_append (p : Char → Bool) :
    ∀ (t r : List Char), (∀ c ∈ t, p c = true) →
      (r = [] ∨ ∃ c cs, r = c :: cs ∧ p c = false) →
      munch p (t ++ r) = (t, r) := by
  intro t
  induction t with
  | nil =>
    intro r _ hr
    rcases hr with rfl | ⟨c, cs, rfl, hc⟩
    · rfl
    · simp [munch, hc]
  | cons a t ih =>
    intro r ht hr
    have ha : p a = true := ht a (List.mem_cons_self a t)
    have hrec := ih r (fun c hc => ht c (List.mem_cons_of_mem a hc)) hr
    simp [munch, ha, hrec]

/-- What a greedy run returns: a decomposition of the input whose
consumed part satisfies `p` throughout. -/
theorem munch_eq (p : Char → Bool) :
    ∀ (cs t r : List Char), munch p cs = (t, r) →
      cs = t ++ r ∧ ∀ c ∈ t, p c = true := by
  intro cs
  induction cs with
  | nil =>
    intro t r h
    simp only [munch, Prod.mk.injEq] at h
    obtain ⟨rfl, rfl⟩ := h
    exact ⟨rfl, by simp⟩
  | cons a cs ih =>
    intro t r h
    by_cases ha : p a
    · rcases hq : munch p cs with ⟨t', r'⟩
      simp only [munch, ha, if_true, hq, Prod.mk.injEq] at h
      obtain ⟨rfl, rfl⟩ := h
      obtain ⟨hsplit, hall⟩ := ih t' r' hq
      refine ⟨by rw [List.cons_append, ← hsplit], ?_⟩
      intro c hc
      rcases List.mem_cons.mp hc with rfl | hc
      · exact ha
      · exact hall c hc
    · simp only [munch, ha, if_false, Prod.mk.injEq] at h
      obtain ⟨rfl, rfl⟩ := h
      exact ⟨rfl, by simp⟩

/-- `munch1` succeeds exactly on a non-empty decomposition. -/
theorem munch1_eq (p : Char → Bool) (cs t r : List Char)
    (h : munch1 p cs = some (t, r)) :
    cs = t ++ r ∧ t ≠ [] ∧ ∀ c ∈ t, p c = true := by
  unfold munch1 at h
  rcases hq : munch p cs with ⟨t', r'⟩
  rw [hq] at h
  by_cases hnil : t' = []
  · simp [hnil] at h
  · simp only [hnil, if_false, Option.some.injEq, Prod.mk.injEq] at h
    obtain ⟨rfl, rfl⟩ := h
    obtain ⟨h1, h2⟩ := munch_eq p cs t' r' hq
    exact ⟨h1, hnil, h2⟩

/-- `munch1` on a non-empty run followed by a refuting boundary. -/
theorem munch1_append (p : Char → Bool) (t r : List Char) (ht : t ≠ [])
    (hall : ∀ c ∈ t, p c = true)
    (hr : r = [] ∨ ∃ c cs, r = c :: cs ∧ p c = false) :
    munch1 p (t ++ r) = some (t, r) := by
  unfold munch1
  rw [munch_append p t r hall hr]
  simp [ht]

/-- A successful literal match decomposes the input. -/
theorem expectChars_eq :
    ∀ (es cs r : List Char), expectChars es cs = some r → cs = es ++ r := by
  intro es
  induction es with
  | nil =>
    intro cs r h
    simp only [expectChars, Option.some.injEq] at h
    rw [h, List.nil_append]
  | cons e es ih =>
    intro cs r h
    cases cs with
    | nil => cases h
    | cons c cs =>
      by_cases hc : c = e
      · simp only [expectChars, hc, if_true] at h
        rw [List.cons_append, ← ih cs r h, hc]
      · simp only [expectChars, hc, if_false] at h
        cases h

/-- Matching a literal against itself followed by anything succeeds. -/
theorem expectChars_append :
    ∀ (es r : List Char), expectChars es (es ++ r) = some r := by
  intro es
  induction es with
  | nil => intro r; rfl
  | cons e es ih => intro r; simp [expectChars, ih]

/-- A successful shape match decomposes the input, the consumed part
satisfying the shape. -/
theorem matchShape_eq :
    ∀ (ps : List (Char → Bool)) (cs t r : List Char),
      matchShape ps cs = some (t, r) → cs = t ++ r ∧ shapeMatches ps t = true := by
  intro ps
  induction ps with
  | nil =>
    intro cs t r h
    simp only [matchShape, Option.some.injEq, Prod.mk.injEq] at h
    obtain ⟨rfl, rfl⟩ := h
    exact ⟨rfl, rfl⟩
  | cons p ps ih =>
    intro cs t r h
    cases cs with
    | nil => cases h
    | cons c cs =>
      by_cases hp : p c
      · simp only [matchShape, hp, if_true, Option.map_eq_some'] at h
        obtain ⟨⟨t', r'⟩, hm, heq⟩ := h
        obtain ⟨rfl, rfl⟩ := Prod.mk.injEq .. |>.mp heq
        obtain ⟨hsplit, hsm⟩ := ih cs t' r' hm
        exact ⟨by rw [List.cons_append, ← hsplit], by simp [shapeMatches, hp, hsm]⟩
      · simp only [matchShape, hp, if_false] at h
        cases h

/-- A shape matches its own consumed part followed by anything. -/
theorem matchShape_append :
    ∀ (ps : List (Char → Bool)) (t r : List Char),
      shapeMatches ps t = true → matchShape ps (t ++ r) = some (t, r) := by
  intro ps
  induction ps with
  | nil =>
    intro t r h
    cases t with
    | nil => rfl
    | cons c t => cases h
  | cons p ps ih =>
    intro t r h
    cases t with
    | nil => cases h
    | cons c t =>
      obtain ⟨hp, hsm⟩ := Bool.and_eq_true .. |>.mp h
      simp [matchShape, hp, ih t r hsm]

/-- Inversion of a successful parse: the four captured groups, with the
character-class facts the regex guarantees for each. -/
theorem parseChars_inv (cs : List Char) (r : LogRecord)
    (h : parseChars cs = some r) :
    ∃ dt sev src msg,
      r = { datetime := String.mk dt, severity := String.mk sev,
            source := String.mk src, message := String.mk msg } ∧
      shapeMatches dtShape dt = true ∧
      sev ≠ [] ∧ (∀ c ∈ sev, c.isUpper = true) ∧
      src ≠ [] ∧ (∀ c ∈ src, isWordColon c = true) ∧
      msg ≠ [] ∧ (∀ c ∈ msg, isMsgChar c = true) := by
  unfold parseChars at h
  simp only [Option.bind_eq_some, Option.map_eq_some'] at h
  obtain ⟨⟨dt, rest1⟩, hms, r1, hex1, ⟨sev, rest2⟩, hm1, r2, hex2, ⟨src, rest3⟩, hm2,
    r3, hex3, ⟨msg, junk⟩, hm3, hrec⟩ := h
  obtain ⟨-, hdt⟩ := matchShape_eq dtShape cs dt rest1 hms
  obtain ⟨-, hsev1, hsev2⟩ := munch1_eq Char.isUpper r1 sev rest2 hm1
  obtain ⟨-, hsrc1, hsrc2⟩ := munch1_eq isWordColon r2 src rest3 hm2
  obtain ⟨-, hmsg1, hmsg2⟩ := munch1_eq isMsgChar r3 msg junk hm3
  exact ⟨dt, sev, src, msg, hrec.symm, hdt, hsev1, hsev2, hsrc1, hsrc2, hmsg1, hmsg2⟩

/-- Parsing a line assembled from four well-formed groups recovers
exactly those groups: the datetime is fixed-width, and each repeated
class excludes the literal character that follows it. -/
theorem parseChars_recon (dt sev src msg : List Char)
    (hdt : shapeMatches dtShape dt = true)
    (hsev1 : sev ≠ []) (hsev2 : ∀ c ∈ sev, c.isUpper = true)
    (hsrc1 : src ≠ []) (hsrc2 : ∀ c ∈ src, isWordColon c = true)
    (hmsg1 : msg ≠ []) (hmsg2 : ∀ c ∈ msg, isMsgChar c = true) :
    parseChars (dt ++ ' ' :: '[' :: (sev ++ ']' :: ' ' :: (src ++ ' ' :: '-' :: ' ' :: msg))) =
      some { datetime := String.mk dt, severity := String.mk sev,
             source := String.mk src, message := String.mk msg } := by
  have hex1 : expectChars [' ', '['] (' ' :: '[' :: (sev ++ ']' :: ' ' :: (src ++ ' ' :: '-' :: ' ' :: msg))) =
      some (sev ++ ']' :: ' ' :: (src ++ ' ' :: '-' :: ' ' :: msg)) :=
    expectChars_append [' ', '['] _
  have hm1 : munch1 Char.isUpper (sev ++ ']' :: ' ' :: (src ++ ' ' :: '-' :: ' ' :: msg)) =
      some (sev, ']' :: ' ' :: (src ++ ' ' :: '-' :: ' ' :: msg)) :=
    munch1_append Char.isUpper sev _ hsev1 hsev2 (Or.inr ⟨']', _, rfl, by decide⟩)
  have hex2 : expectChars [']', ' '] (']' :: ' ' :: (src ++ ' ' :: '-' :: ' ' :: msg)) =
      some (src ++ ' ' :: '-' :: ' ' :: msg) :=
    expectChars_append [']', ' '] _
  have hm2 : munch1 isWordColon (src ++ ' ' :: '-' :: ' ' :: msg) =
      some (src, ' ' :: '-' :: ' ' :: msg) :=
    munch1_append isWordColon src _ hsrc1 hsrc2 (Or.inr ⟨' ', _, rfl, by decide⟩)
  have hex3 : expectChars [' ', '-', ' '] (' ' :: '-' :: ' ' :: msg) = some msg :=
    expectChars_append [' ', '-', ' '] _
  have hm3 : munch1 isMsgChar msg = some (msg, []) := by
    have h := munch1_append isMsgChar msg [] hmsg1 hmsg2 (Or.inl rfl)
    rwa [List.append_nil] at h
  unfold parseChars
  rw [matchShape_append dtShape dt _ hdt]
  simp only [Option.some_bind]
  rw [hex1]
  simp only [Option.some_bind]
  rw [hm1]
  simp only [Option.some_bind]
  rw [hex2]
  simp only [Option.some_bind]
  rw [hm2]
  simp only [Option.some_bind]
  rw [hex3]
  simp only [Option.some_bind]
  rw [hm3]
  rfl

/-- The characters of the line rebuilt by `reconstruct_line`. -/
theorem reconstruct_data (dt sev src msg : List Char) :
    (reconstruct_line { datetime := String.mk dt, severity := String.mk sev,
                        source := String.mk src, message := String.mk msg }).data =
      dt ++ ' ' :: '[' :: (sev ++ ']' :: ' ' :: (src ++ ' ' :: '-' :: ' ' :: msg)) := by
  simp only [reconstruct_line, String.data_append]
  simp [List.append_assoc]

/-- C6: parsing is idempotent on valid lines: whenever a line parses to
a record, the line rebuilt from that record's four fields as
`<datetime> [<severity>] <source> - <message>` parses again, to an equal
record. -/
theorem parse_roundtrip (line : String) (r : LogRecord)
    (h : parse_log_line line = some r) :
    parse_log_line (reconstruct_line r) = some r := by
  obtain ⟨dt, sev, src, msg, rfl, hdt, hsev1, hsev2, hsrc1, hsrc2, hmsg1, hmsg2⟩ :=
    parseChars_inv line.data r h
  unfold parse_log_line
  rw [reconstruct_data]
  exact parseChars_recon dt sev src msg hdt hsev1 hsev2 hsrc1 hsrc2 hmsg1 hmsg2

/-- C6 witness: the round trip at a concrete valid line. -/
theorem parse_roundtrip_witness :
    parse_log_line demoLine = some rec0 ∧
    parse_log_line (reconstruct_line rec0) = some rec0 :=
  ⟨by decide, parse_roundtrip demoLine rec0 (by decide)⟩

/-- C7 counterexample: with `"ERROR"` already an active term, adding
`"error"` — the same term up to case normalization — is not a no-op:
the membership test of `add_search_term` is case-sensitive string
equality, so the lowercase variant is appended as a duplicate. -/
theorem add_search_term_cex :
    "ERROR" ∈ termState.search_terms ∧
    "error".data.map Char.toLower = "ERROR".data.map Char.toLower ∧
    add_search_term termState "error" ≠ termState ∧
    (add_search_term termState "error").search_terms = ["ERROR", "error"] := by
  refine ⟨by decide, by decide, ?_, by decide⟩
  intro h
  have : (add_search_term termState "error").search_terms = termState.search_terms := by
    rw [h]
  simp [add_search_term, termState, demoState] at this

/-- C7 amended: `add_search_term` is a no-op exactly when the same
string (case-sensitively, as entered) is already present; otherwise it
appends the term; it never changes the visible subset, the cursor, the
threshold, or the store.  Case-insensitivity applies only to highlight
matching, not to duplicate rejection. -/
theorem add_search_term_spec (st : LogState) (term : String) :
    (term ∈ st.search_terms → add_search_term st term = st) ∧
    (term ∉ st.search_terms →
      (add_search_term st term).search_terms = st.search_terms ++ [term]) ∧
    (add_search_term st term).filtered_logs = st.filtered_logs ∧
    (add_search_term st term).current_index = st.current_index ∧
    (add_search_term st term).current_level = st.current_level ∧
    (add_search_term st term).logs = st.logs := by
  unfold add_search_term
  by_cases h : term ∈ st.search_terms
  · simp [h]
  · simp [h]

/-- C7 amended witness: re-adding the identical string is a no-op. -/
theorem add_search_term_spec_witness :
    add_search_term termState "ERROR" = termState :=
  (add_search_term_spec termState "ERROR").1 (by decide)

/-- C8: `navigate_logs` never changes the store, the visible subset, the
threshold or the search terms; `"up"` at cursor 0 and `"down"` at or
beyond the last index are silent no-ops; otherwise the cursor moves by
exactly one with no wraparound. -/
theorem navigate_logs_spec (st : LogState) :
    (∀ direction, (navigate_logs st direction).logs = st.logs ∧
      (navigate_logs st direction).filtered_logs = st.filtered_logs ∧
      (navigate_logs st direction).current_level = st.current_level ∧
      (navigate_logs st direction).search_terms = st.search_terms) ∧
    (st.current_index = 0 → navigate_logs st "up" = st) ∧
    (0 < st.current_index →
      (navigate_logs st "up").current_index = st.current_index - 1) ∧
    (st.current_index < st.filtered_logs.length - 1 →
      (navigate_logs st "down").current_index = st.current_index + 1) ∧
    (¬ st.current_index < st.filtered_logs.length - 1 →
      navigate_logs st "down" = st) := by
  have hud : ("up" : String) ≠ "down" := by decide
  have hdu : ("down" : String) ≠ "up" := by decide
  refine ⟨?_, ?_, ?_, ?_, ?_⟩
  · intro direction
    unfold navigate_logs
    split_ifs <;> exact ⟨rfl, rfl, rfl, rfl⟩
  · intro h0
    simp [navigate_logs, h0, hud]
  · intro hpos
    simp [navigate_logs, hpos]
  · intro hlt
    simp [navigate_logs, hdu, hlt]
  · intro hge
    simp [navigate_logs, hdu, hge]

/-- C8 witness: on the freshly loaded five-record viewer, `"up"` at
cursor 0 is a no-op and `"down"` advances the cursor to 1. -/
theorem navigate_logs_spec_witness :
    navigate_logs demoState "up" = demoState ∧
    (navigate_logs demoState "down").current_index = demoState.current_index + 1 :=
  ⟨(navigate_logs_spec demoState).2.1 rfl,
   (navigate_logs_spec demoState).2.2.2.1 (by decide)⟩

/-- C9: on a store with severities in the enumeration, `reset_view`
followed by `filter_logs DEBUG` succeeds and yields the full store as
the visible subset (the initial load's visible subset), cursor 0. -/
theorem reset_then_filter_debug (st : LogState)
    (hsev : ∀ r ∈ st.logs, r.severity ∈ levels) :
    ∃ st', filter_logs (reset_view st) "DEBUG" = some st' ∧
      st'.filtered_logs = st.logs ∧ st'.current_index = 0 := by
  have h0 : pyIndex levels "DEBUG" = some 0 := by decide
  have hfa : filterAux 0 (reset_view st).logs =
      some ((reset_view st).logs.filter (fun r => decide (0 ≤ sevIdxD r.severity))) :=
    filterAux_eq 0 (reset_view st).logs hsev
  have hall : (reset_view st).logs.filter (fun r => decide (0 ≤ sevIdxD r.severity)) = st.logs := by
    have : ∀ r : LogRecord, decide (0 ≤ sevIdxD r.severity) = true := by
      intro r; simp
    simp only [this, List.filter_true]
    rfl
  refine ⟨{ (reset_view st) with filtered_logs := st.logs, current_index := 0 }, ?_, rfl, rfl⟩
  simp only [filter_logs, h0, Option.some_bind, hfa, hall, Option.map_some']

/-- C9 witness: the round trip at the five-record viewer after a filter
and a cursor move. -/
theorem reset_then_filter_debug_witness :
    ∃ st', filter_logs (reset_view (navigate_logs demoState "down")) "DEBUG" = some st' ∧
      st'.filtered_logs = (navigate_logs demoState "down").logs ∧ st'.current_index = 0 :=
  reset_then_filter_debug (navigate_logs demoState "down") (by decide)

/-- C10: threshold comparison is not total over parseable records: the
regex accepts the severity `TRACE` into the store, and then
`filter_logs` and `get_logs_by_range` raise an unhandled `ValueError`
(modelled `none`) for every valid level and any window size. -/
theorem unknown_severity_raises :
    parse_log_line traceLine = some traceRec ∧
    traceState.logs = [traceRec] ∧
    pyIndex levels "TRACE" = none ∧
    ∀ level ∈ levels, filter_logs traceState level = none ∧
      ∀ count, get_logs_by_range traceState level count = none := by
  refine ⟨by decide, by decide, rfl, ?_⟩
  intro level hlevel
  fin_cases hlevel <;> exact ⟨rfl, fun _ => rfl⟩

/-- C10 witness: at level `ERROR` and window size 7 both operations
raise. -/
theorem unknown_severity_raises_witness :
    filter_logs traceState "ERROR" = none ∧
    get_logs_by_range traceState "ERROR" 7 = none :=
  ⟨(unknown_severity_raises.2.2.2 "ERROR" (by decide)).1,
   (unknown_severity_raises.2.2.2 "ERROR" (by decide)).2 7⟩

end LogAnalyzer
